import Mathlib

/-!
Shallow embedding of the NSP2 overexpression heatmap scripts
(`makeunbiased_heatmap.py` and `makeheatmap_NSPpathways.py`).

Tables are lists of rows; a numeric cell is `Option ℚ`, where `none`
models a missing value (pandas `NaN`): every ordered comparison against
`none` is false, exactly as `NaN < x` and `NaN > x` are false in pandas.
-/

namespace NSP2

/-- A numeric cell of an expression table; `none` models `NaN`. -/
abbrev Val := Option ℚ

/-- One row of a deseq2 log2-fold-change table: the gene identifier and the
condition columns `nsp2-9`, `NSP2ox1`, `NSP2ox3`, `NSP2ox6`. -/
structure LfcRow where
  gene_id : String
  nsp2_9 : Val
  NSP2ox1 : Val
  NSP2ox3 : Val
  NSP2ox6 : Val
  deriving DecidableEq, Repr

/-- Pandas semantics of `series < bound` on one cell: false on `NaN`. -/
def vlt (x : Val) (b : ℚ) : Bool :=
  match x with
  | none => false
  | some v => decide (v < b)

/-- Pandas semantics of `series > bound` on one cell: false on `NaN`. -/
def vgt (x : Val) (b : ℚ) : Bool :=
  match x with
  | none => false
  | some v => decide (b < v)

/-- The row predicate of `filter_lfc`, in the source's disjunct order:
`(NSP2ox1 < low) | (NSP2ox3 < low) | (NSP2ox6 < low) |
 (NSP2ox1 > high) | (NSP2ox3 > high) | (NSP2ox6 > high)`. -/
def passes (lfc_low lfchigh : ℚ) (r : LfcRow) : Bool :=
  vlt r.NSP2ox1 lfc_low || vlt r.NSP2ox3 lfc_low || vlt r.NSP2ox6 lfc_low ||
  vgt r.NSP2ox1 lfchigh || vgt r.NSP2ox3 lfchigh || vgt r.NSP2ox6 lfchigh

/-- `filter_lfc` of both scripts: `df_in.loc[...]` keeps, in input order,
exactly the rows satisfying the disjunction above. -/
def filter_lfc (df_in : List LfcRow) (lfc_low lfchigh : ℚ) : List LfcRow :=
  df_in.filter (passes lfc_low lfchigh)

/-- Spec-side reading of "the cell is strictly below L or strictly above U":
it holds only for present (non-`NaN`) values. -/
def outsideBounds (low high : ℚ) (x : Val) : Prop :=
  ∃ v, x = some v ∧ (v < low ∨ high < v)

/-- Spec-side reading of "at least one designated condition column is
outside [L, U]" for a row. -/
def anyCondOutside (low high : ℚ) (r : LfcRow) : Prop :=
  outsideBounds low high r.NSP2ox1 ∨ outsideBounds low high r.NSP2ox3 ∨
    outsideBounds low high r.NSP2ox6

theorem passes_iff (low high : ℚ) (r : LfcRow) :
    passes low high r = true ↔ anyCondOutside low high r := by
  unfold passes anyCondOutside outsideBounds
  cases h1 : r.NSP2ox1 <;> cases h3 : r.NSP2ox3 <;> cases h6 : r.NSP2ox6 <;>
    simp [vlt, vgt] <;> tauto

/-- A fixture row whose other condition columns sit inside any interval
containing 0. -/
def fixtureRow (g : String) (v : ℚ) : LfcRow :=
  ⟨g, some 0, some v, some 0, some 0⟩

/-- The spec's fixture: four rows with `NSP2ox1` values -8, -1, 3, 9. -/
def fixtureTable : List LfcRow :=
  [fixtureRow "g1" (-8), fixtureRow "g2" (-1), fixtureRow "g3" 3, fixtureRow "g4" 9]

/-- C1: a row is retained by `filter_lfc` iff at least one of the condition
columns `NSP2ox1`, `NSP2ox3`, `NSP2ox6` is strictly below `L` or strictly
above `U` (OR across columns), with no precondition on `L`, `U`; and on the
fixture rows with `NSP2ox1` values [-8, -1, 3, 9] and bounds (-6, 6),
exactly the rows with -8 and 9 are retained, in input order. -/
theorem claim_C1 :
    (∀ (df : List LfcRow) (L U : ℚ) (r : LfcRow),
        r ∈ filter_lfc df L U ↔ r ∈ df ∧ anyCondOutside L U r) ∧
    filter_lfc fixtureTable (-6) 6 = [fixtureRow "g1" (-8), fixtureRow "g4" 9] := by
  constructor
  · intro df L U r
    simp [filter_lfc, List.mem_filter, passes_iff]
  · decide

/-- C9: `filter_lfc` is a pure row selection: its output is a sublist of the
input, so retained rows keep their relative order, are not duplicated, and
carry exactly their input field values; the embedding is a pure function, so
the input table is unchanged. -/
theorem claim_C9 :
    ∀ (df : List LfcRow) (L U : ℚ), (filter_lfc df L U).Sublist df :=
  fun df _ _ => List.filter_sublist df

/-- C10: a row whose three designated condition values are all missing
(`NaN`) is never retained by `filter_lfc`, for any bounds: `NaN` satisfies
neither `< L` nor `> U`. -/
theorem claim_C10 :
    ∀ (df : List LfcRow) (L U : ℚ) (r : LfcRow),
      r.NSP2ox1 = none → r.NSP2ox3 = none → r.NSP2ox6 = none →
      r ∉ filter_lfc df L U := by
  intro df L U r h1 h3 h6 hmem
  have hp := (List.mem_filter.mp hmem).2
  simp [passes, h1, h3, h6, vlt, vgt] at hp

/-- C10 witness: the all-`NaN` row is rejected on a concrete table. -/
theorem claim_C10_witness :
    (⟨"g0", none, none, none, none⟩ : LfcRow) ∉
      filter_lfc [⟨"g0", none, none, none, none⟩] (-6) 6 :=
  claim_C10 _ _ _ _ rfl rfl rfl

/-- Pandas `fillna('')` on a string cell: `none` (NaN) becomes `""`. -/
def fillna (x : Option String) : String := x.getD ""

/-- The label built by `annotate_dataframe` in `makeunbiased_heatmap.py`:
`df['symbol'].fillna('') + ' | ' + df['name'].fillna('')`. No trimming is
applied by the source. -/
def mkLabel (symbol name : Option String) : String :=
  fillna symbol ++ " | " ++ fillna name

/-- The character set of `str.lstrip('| ')`. -/
def isPipeOrSpace (c : Char) : Bool := c == '|' || c == ' '

/-- `series.str.lstrip('| ')`: drop leading characters from the set. -/
def lstripPipeSpace (s : String) : String :=
  String.mk (s.data.dropWhile isPipeOrSpace)

/-- The final display name of `merge_geneid_annotation`:
`(Annotation + ' ' + Gene_id).lstrip('| ')`. -/
def mkNames (annotLabel gene_id : String) : String :=
  lstripPipeSpace (annotLabel ++ " " ++ gene_id)

theorem dropWhile_idem (p : Char → Bool) (l : List Char) :
    (l.dropWhile p).dropWhile p = l.dropWhile p := by
  induction l with
  | nil => rfl
  | cons c cs ih =>
    by_cases h : p c = true
    · simpa [List.dropWhile, h] using ih
    · simp [List.dropWhile, h]

/-- C2 counterexample: with symbol `"ABC"` and empty name the source keeps
the trailing separator: the label is `"ABC | "`, not `"ABC"` — neither the
annotation column nor the lstripped display name equals `"ABC"`. -/
theorem claim_C2_counterexample :
    mkLabel (some "ABC") (some "") = "ABC | " ∧
    mkLabel (some "ABC") (some "") ≠ "ABC" ∧
    mkNames (mkLabel (some "ABC") (some "")) "" ≠ "ABC" := by
  refine ⟨by decide, by decide, by decide⟩

/-- C2 amended: the label is `symbol + " | " + name` with missing operands
as `""` and no trimming; the trailing separator is kept (`"ABC | "`), while
leading `'|'`/`' '` characters are stripped only from the final display name
`Annotation + " " + Gene_id`, which therefore never starts with a separator
character: symbol `""`, name `"xyz"`, gene id `"g"` gives `"xyz g"`, and
all-empty operands give `""`. -/
theorem claim_C2_amended :
    mkLabel (some "ABC") (some "") = "ABC | " ∧
    mkNames (mkLabel none (some "xyz")) "g" = "xyz g" ∧
    mkNames (mkLabel none none) "" = "" ∧
    ∀ (a g : String), lstripPipeSpace (mkNames a g) = mkNames a g := by
  refine ⟨by decide, by decide, by decide, ?_⟩
  intro a g
  simp [mkNames, lstripPipeSpace, dropWhile_idem]

/-- `series.str.replace('Parand_', '')` under the regex=True default of the
source's pandas era: remove every (non-overlapping, left-to-right)
occurrence of the literal `Parand_`. -/
def removeParand : List Char → List Char
  | 'P' :: 'a' :: 'r' :: 'a' :: 'n' :: 'd' :: '_' :: rest => removeParand rest
  | c :: cs => c :: removeParand cs
  | [] => []

/-- One step of the `'\.\d$'` regex replace, working on the reversed
character list: drop a final digit preceded by a dot. -/
def stripDotDigitAux : List Char → List Char
  | d :: dot :: rest => if d.isDigit && dot == '.' then rest else d :: dot :: rest
  | l => l

/-- `series.str.replace(r'\.\d$', '')`: remove a trailing dot-digit pair. -/
def stripDotDigit (l : List Char) : List Char :=
  (stripDotDigitAux l.reverse).reverse

/-- The identifier cleanup of `prepare_dataframe` in
`makeheatmap_NSPpathways.py`: remove `Parand_`, then a trailing `.` plus one
digit. -/
def cleanupGeneId (s : String) : String :=
  String.mk (stripDotDigit (removeParand s.data))

theorem stripDotDigit_append (l : List Char) (d : Char) (h : d.isDigit = true) :
    stripDotDigit (l ++ ['.', d]) = l := by
  have hrev : (l ++ ['.', d]).reverse = d :: '.' :: l.reverse := by simp
  unfold stripDotDigit
  rw [hrev]
  simp [stripDotDigitAux, h]

theorem removeParand_literal (t : List Char) :
    removeParand ('P' :: 'a' :: 'r' :: 'a' :: 'n' :: 'd' :: '_' :: t) =
      removeParand t := by
  simp [removeParand]

/-- C6: the pathway-merge identifier cleanup removes the literal `Parand_`
and a trailing dot-plus-one-digit suffix, as a general pattern: any trailing
`.` followed by a digit is dropped and any leading `Parand_` literal is
removed; on the fixture `"Parand_0001234.1"` it yields exactly `"0001234"`. -/
theorem claim_C6 :
    cleanupGeneId "Parand_0001234.1" = "0001234" ∧
    (∀ (l : List Char) (d : Char), d.isDigit = true →
        stripDotDigit (l ++ ['.', d]) = l) ∧
    (∀ t : List Char,
        removeParand ('P' :: 'a' :: 'r' :: 'a' :: 'n' :: 'd' :: '_' :: t) =
          removeParand t) := by
  refine ⟨by decide, fun l d h => stripDotDigit_append l d h, removeParand_literal⟩

/-- C6 witness: the general suffix rule applied at a concrete input. -/
theorem claim_C6_witness :
    Char.isDigit '7' = true ∧ stripDotDigit ("abc".data ++ ['.', '7']) = "abc".data :=
  ⟨by decide, claim_C6.2.1 "abc".data '7' (by decide)⟩

/-- One row of the gene-annotation table after the `mRNA` feature filter and
column selection: `locus_tag` (renamed to `Gene_id`), `name`, `symbol`;
`none` models a NaN text cell. -/
structure AnnRow where
  locus_tag : String
  name : Option String
  symbol : Option String
  deriving DecidableEq, Repr

/-- The annotation rows matching one gene identifier. -/
def matchAnn (annotation_df : List AnnRow) (g : String) : List AnnRow :=
  annotation_df.filter (fun a => a.locus_tag == g)

/-- `pd.merge(df, annotation_df, on='Gene_id', how='left')` of
`annotate_dataframe`: every left row is kept in order; a row with no match
is paired with `none` (all-NaN annotation fields), a row with matches is
paired with each matching annotation row in order. -/
def leftMerge (df : List LfcRow) (annotation_df : List AnnRow) :
    List (LfcRow × Option AnnRow) :=
  df.flatMap (fun e =>
    match matchAnn annotation_df e.gene_id with
    | [] => [(e, none)]
    | ms => ms.map (fun a => (e, some a)))

theorem length_filter_key_le_one {α : Type} (f : α → String) (l : List α)
    (h : (l.map f).Nodup) (g : String) :
    (l.filter (fun a => f a == g)).length ≤ 1 := by
  induction l with
  | nil => simp
  | cons a l ih =>
    simp only [List.map_cons, List.nodup_cons] at h
    by_cases ha : f a == g
    · have hg : f a = g := by simpa using ha
      have hnil : l.filter (fun a => f a == g) = [] := by
        refine List.filter_eq_nil_iff.mpr ?_
        intro b hb
        intro hbg
        exact h.1 (hg ▸ (by simpa using hbg) ▸ List.mem_map_of_mem f hb)
      simp [List.filter_cons, ha, hnil]
    · simpa [List.filter_cons, ha] using ih h.2

/-- C3: with unique annotation identifiers, the left join keeps exactly the
expression rows, in order (its first projections are the input table), so no
expression row is ever dropped; and an unmatched output row carries all-NaN
annotation fields, which `fillna` turns into empty label fields. -/
theorem claim_C3 (df : List LfcRow) (annotation_df : List AnnRow)
    (hu : (annotation_df.map AnnRow.locus_tag).Nodup) :
    (leftMerge df annotation_df).map Prod.fst = df ∧
    ∀ p ∈ leftMerge df annotation_df, p.2 = none →
      fillna (p.2.bind AnnRow.symbol) = "" ∧ fillna (p.2.bind AnnRow.name) = "" := by
  constructor
  · induction df with
    | nil => rfl
    | cons e es ih =>
      have hstep :
          (match matchAnn annotation_df e.gene_id with
            | [] => [(e, (none : Option AnnRow))]
            | ms => ms.map (fun a => (e, some a))).map Prod.fst = [e] := by
        have hle := length_filter_key_le_one AnnRow.locus_tag annotation_df hu e.gene_id
        rcases hm : matchAnn annotation_df e.gene_id with _ | ⟨a, rest⟩
        · rfl
        · have : rest = [] := by
            rw [matchAnn] at hm
            rw [hm] at hle
            simp only [List.length_cons] at hle
            exact List.length_eq_zero.mp (by omega)
          subst this
          rfl
      calc (leftMerge (e :: es) annotation_df).map Prod.fst
          = (match matchAnn annotation_df e.gene_id with
              | [] => [(e, (none : Option AnnRow))]
              | ms => ms.map (fun a => (e, some a))).map Prod.fst ++
            (leftMerge es annotation_df).map Prod.fst := by
            simp [leftMerge, List.flatMap_cons]
        _ = e :: es := by rw [hstep, ih]; rfl
  · intro p _ hp
    simp [hp, fillna]

/-- C3 witness: a two-row expression table against a one-row annotation
table — the unannotated row survives. -/
theorem claim_C3_witness :
    (leftMerge [⟨"gA", some 1, some 1, some 1, some 1⟩,
                ⟨"gB", some 2, some 2, some 2, some 2⟩]
       [⟨"gA", some "nameA", some "symA"⟩]).map Prod.fst =
      [⟨"gA", some 1, some 1, some 1, some 1⟩,
       ⟨"gB", some 2, some 2, some 2, some 2⟩] :=
  (claim_C3 _ _ (by decide)).1

/-- One row of the pathway table: `geneid` and the pathway label column
(called `annotation` in the source; renamed `plabel` here). -/
structure PathRow where
  geneid : String
  plabel : String
  deriving DecidableEq, Repr

/-- `pd.merge(cssp_df, df_lfc, left_on='geneid', right_on='Gene_id',
how='inner')` of `prepare_dataframe`: for each pathway row in order, one
output row per matching expression row, in expression-table order (pandas
preserves the order of the left keys for an inner merge). -/
def innerMergePathway (cssp_df : List PathRow) (df_lfc : List LfcRow) :
    List (PathRow × LfcRow) :=
  cssp_df.flatMap (fun p =>
    (df_lfc.filter (fun e => e.gene_id == p.geneid)).map (fun e => (p, e)))

theorem innerMergePathway_cons (p : PathRow) (ps : List PathRow)
    (df_lfc : List LfcRow) :
    innerMergePathway (p :: ps) df_lfc =
      (df_lfc.filter (fun e => e.gene_id == p.geneid)).map (fun e => (p, e)) ++
        innerMergePathway ps df_lfc := by
  simp [innerMergePathway, List.flatMap_cons]

theorem length_filter_add_disjoint {α : Type} (p q : α → Bool) (l : List α)
    (h : ∀ a, ¬(p a = true ∧ q a = true)) :
    (l.filter p).length + (l.filter q).length =
      (l.filter (fun a => p a || q a)).length := by
  induction l with
  | nil => rfl
  | cons a l ih =>
    cases hp : p a with
    | true =>
      have hq : q a = false := by
        cases hqa : q a
        · rfl
        · exact absurd ⟨hp, hqa⟩ (h a)
      simp only [List.filter_cons, hp, hq, Bool.true_or, if_true, if_false,
        Bool.false_eq_true, List.length_cons]
      omega
    | false =>
      cases hq : q a with
      | true =>
        simp only [List.filter_cons, hp, hq, Bool.false_or, if_true, if_false,
          Bool.false_eq_true, List.length_cons]
        omega
      | false =>
        simp only [List.filter_cons, hp, hq, Bool.false_or, if_false,
          Bool.false_eq_true]
        exact ih

theorem innerMergePathway_length_le_right (cssp_df : List PathRow)
    (df_lfc : List LfcRow) (hp : (cssp_df.map PathRow.geneid).Nodup) :
    (innerMergePathway cssp_df df_lfc).length ≤
      (df_lfc.filter
        (fun e => (cssp_df.map PathRow.geneid).contains e.gene_id)).length := by
  induction cssp_df with
  | nil => simp [innerMergePathway]
  | cons p ps ih =>
    simp only [List.map_cons, List.nodup_cons] at hp
    have hdisj : ∀ e : LfcRow,
        ¬((e.gene_id == p.geneid) = true ∧
          ((ps.map PathRow.geneid).contains e.gene_id) = true) := by
      rintro e ⟨h1, h2⟩
      have he : e.gene_id = p.geneid := by simpa using h1
      have : e.gene_id ∈ ps.map PathRow.geneid := by
        simpa using h2
      exact hp.1 (he ▸ this)
    have hsum :
        (df_lfc.filter (fun e => e.gene_id == p.geneid)).length +
          (df_lfc.filter
            (fun e => (ps.map PathRow.geneid).contains e.gene_id)).length =
        (df_lfc.filter
          (fun e => e.gene_id == p.geneid ||
            (ps.map PathRow.geneid).contains e.gene_id)).length := by
      simpa using length_filter_add_disjoint
        (fun e : LfcRow => e.gene_id == p.geneid)
        (fun e : LfcRow => (ps.map PathRow.geneid).contains e.gene_id) df_lfc hdisj
    have hpred :
        (fun e : LfcRow => ((p.geneid :: ps.map PathRow.geneid).contains e.gene_id)) =
        (fun e : LfcRow => e.gene_id == p.geneid ||
          (ps.map PathRow.geneid).contains e.gene_id) := by
      funext e
      simp only [List.contains_cons]
    have hih := ih hp.2
    rw [innerMergePathway_cons, List.length_append, List.length_map,
      List.map_cons, hpred, ← hsum]
    omega

theorem innerMergePathway_length_le_left (cssp_df : List PathRow)
    (df_lfc : List LfcRow) (he : (df_lfc.map LfcRow.gene_id).Nodup) :
    (innerMergePathway cssp_df df_lfc).length ≤ cssp_df.length := by
  induction cssp_df with
  | nil => simp [innerMergePathway]
  | cons p ps ih =>
    have h1 := length_filter_key_le_one LfcRow.gene_id df_lfc he p.geneid
    rw [innerMergePathway_cons, List.length_append, List.length_map,
      List.length_cons]
    omega

/-- Two pathway rows sharing one identifier. -/
def dupPath : List PathRow := [⟨"g", "pw1"⟩, ⟨"g", "pw2"⟩]

/-- Two expression rows sharing the same identifier. -/
def dupLfc : List LfcRow :=
  [⟨"g", some 1, some 1, some 1, some 1⟩, ⟨"g", some 2, some 2, some 2, some 2⟩]

/-- C5 counterexample: with duplicate identifiers (two pathway rows and two
expression rows all keyed `"g"`) the inner merge yields 4 rows, exceeding
min(2, 2) = 2, so the unconditional row-count bound is false. -/
theorem claim_C5_counterexample :
    ¬((innerMergePathway dupPath dupLfc).length ≤
        min dupPath.length dupLfc.length) := by
  decide

/-- C5 amended: for every pair of input tables, the inner merge's row count
equals the sum over pathway rows of the number of matching expression rows
(the per-key match products), and every identifier appearing in the output
exists in both source tables — both with no hypothesis at all; under the
data model's invariant that identifiers are unique within each table, the
row count is moreover at most min(pathway rows, expression rows). -/
theorem claim_C5_amended (cssp_df : List PathRow) (df_lfc : List LfcRow) :
    (innerMergePathway cssp_df df_lfc).length =
      (cssp_df.map (fun p =>
        (df_lfc.filter (fun e => e.gene_id == p.geneid)).length)).sum ∧
    (∀ pr ∈ innerMergePathway cssp_df df_lfc,
      pr.1.geneid ∈ cssp_df.map PathRow.geneid ∧
      pr.1.geneid ∈ df_lfc.map LfcRow.gene_id) ∧
    ((cssp_df.map PathRow.geneid).Nodup →
      (df_lfc.map LfcRow.gene_id).Nodup →
      (innerMergePathway cssp_df df_lfc).length ≤
        min cssp_df.length df_lfc.length) := by
  refine ⟨?_, ?_, ?_⟩
  · induction cssp_df with
    | nil => rfl
    | cons p ps ih =>
      rw [innerMergePathway_cons, List.length_append, List.length_map,
        List.map_cons, List.sum_cons, ih]
  · intro pr hpr
    rcases List.mem_flatMap.mp hpr with ⟨p, hpmem, hrow⟩
    rcases List.mem_map.mp hrow with ⟨e, hemem, hpe⟩
    have hkey : e.gene_id = p.geneid := by
      have := (List.mem_filter.mp hemem).2
      simpa using this
    have hee : e ∈ df_lfc := (List.mem_filter.mp hemem).1
    subst hpe
    exact ⟨List.mem_map_of_mem PathRow.geneid hpmem,
      hkey ▸ List.mem_map_of_mem LfcRow.gene_id hee⟩
  · intro hp he
    have h1 := innerMergePathway_length_le_left cssp_df df_lfc he
    have h2 := innerMergePathway_length_le_right cssp_df df_lfc hp
    have h3 := List.length_filter_le
      (fun e : LfcRow => (cssp_df.map PathRow.geneid).contains e.gene_id) df_lfc
    simp only [le_min_iff]
    exact ⟨h1, le_trans h2 (by simpa using h3)⟩

/-- C5 witness: the amended bound's uniqueness hypotheses discharged on
concrete duplicate-free tables. -/
theorem claim_C5_amended_witness :
    (innerMergePathway [⟨"g1", "pw1"⟩, ⟨"g2", "pw2"⟩]
        [⟨"g2", some 1, some 1, some 1, some 1⟩]).length ≤
      min 2 1 :=
  (claim_C5_amended _ _).2.2 (by decide) (by decide)

/-- One row of the dual-condition merged table: the shared `Gene_id` plus
the left table's condition columns suffixed `_x` and the right table's
suffixed `_y`, as pandas names them for overlapping columns. -/
structure MergedRow where
  Gene_id : String
  nsp2_9_x : Val
  NSP2ox1_x : Val
  NSP2ox3_x : Val
  NSP2ox6_x : Val
  nsp2_9_y : Val
  NSP2ox1_y : Val
  NSP2ox3_y : Val
  NSP2ox6_y : Val
  deriving DecidableEq, Repr

/-- Combine one left and one right row into a suffixed merged row. -/
def mergeRows (l r : LfcRow) : MergedRow :=
  ⟨l.gene_id, l.nsp2_9, l.NSP2ox1, l.NSP2ox3, l.NSP2ox6,
    r.nsp2_9, r.NSP2ox1, r.NSP2ox3, r.NSP2ox6⟩

/-- `processed_df_NPLOW.merge(processed_df_NlowPhigh, on='Gene_id',
how='inner')`: for each left row in order, one output row per matching
right row, in right-table order (pandas preserves the order of the left
keys for an inner merge). -/
def innerMergeXY (ls rs : List LfcRow) : List MergedRow :=
  ls.flatMap (fun l =>
    (rs.filter (fun r => r.gene_id == l.gene_id)).map (mergeRows l))

theorem innerMergeXY_cons (l : LfcRow) (ls rs : List LfcRow) :
    innerMergeXY (l :: ls) rs =
      (rs.filter (fun r => r.gene_id == l.gene_id)).map (mergeRows l) ++
        innerMergeXY ls rs := by
  simp [innerMergeXY, List.flatMap_cons]

theorem filter_key_map_const (rs : List LfcRow)
    (hr : (rs.map LfcRow.gene_id).Nodup) (i : String) :
    (rs.filter (fun r => r.gene_id == i)).map (fun _ => i) =
      if (rs.map LfcRow.gene_id).contains i then [i] else [] := by
  by_cases hc : (rs.map LfcRow.gene_id).contains i = true
  · have hmem : i ∈ rs.map LfcRow.gene_id := by simpa using hc
    rcases List.mem_map.mp hmem with ⟨r, hrmem, hri⟩
    have hrf : r ∈ rs.filter (fun r => r.gene_id == i) :=
      List.mem_filter.mpr ⟨hrmem, by simpa using hri⟩
    have h1 : (rs.filter (fun r => r.gene_id == i)).length ≤ 1 :=
      length_filter_key_le_one LfcRow.gene_id rs hr i
    have h2 : 1 ≤ (rs.filter (fun r => r.gene_id == i)).length :=
      List.length_pos.mpr (List.ne_nil_of_mem hrf)
    obtain ⟨x, hx⟩ := List.length_eq_one.mp (le_antisymm h1 h2)
    rw [if_pos hc, hx]
    rfl
  · have hnil : rs.filter (fun r => r.gene_id == i) = [] := by
      refine List.filter_eq_nil_iff.mpr ?_
      intro r hrmem hri
      have hgi : r.gene_id = i := by simpa using hri
      have hmem : i ∈ rs.map LfcRow.gene_id :=
        hgi ▸ List.mem_map_of_mem LfcRow.gene_id hrmem
      exact hc (by simpa using hmem)
    rw [hnil, if_neg hc]
    rfl

/-- C7: under unique right-table identifiers, the dual-condition inner merge
outputs, in the left table's order, exactly the left rows whose identifier
also occurs in the right table (its `Gene_id` column is the left table's
identifier column filtered by right-table membership), and each output row
is the `_x`/`_y`-suffixed combination of one left row and one right row
sharing that identifier. -/
theorem claim_C7 (ls rs : List LfcRow)
    (hr : (rs.map LfcRow.gene_id).Nodup) :
    (innerMergeXY ls rs).map MergedRow.Gene_id =
      (ls.map LfcRow.gene_id).filter
        (fun i => (rs.map LfcRow.gene_id).contains i) ∧
    ∀ m ∈ innerMergeXY ls rs, ∃ l ∈ ls, ∃ r ∈ rs,
      r.gene_id = l.gene_id ∧ m = mergeRows l r := by
  constructor
  · induction ls with
    | nil => rfl
    | cons l ls' ih =>
      have hsing := filter_key_map_const rs hr l.gene_id
      have hmapGene :
          ((rs.filter (fun r => r.gene_id == l.gene_id)).map
              (mergeRows l)).map MergedRow.Gene_id =
            (rs.filter (fun r => r.gene_id == l.gene_id)).map
              (fun _ => l.gene_id) := by
        rw [List.map_map]
        rfl
      rw [innerMergeXY_cons, List.map_append, hmapGene, hsing, ih,
        List.map_cons, List.filter_cons]
      by_cases hc : (rs.map LfcRow.gene_id).contains l.gene_id = true
      · have hcE : ∃ a ∈ rs, a.gene_id = l.gene_id := by simpa using hc
        simp [hcE]
      · have hcE : ¬∃ a ∈ rs, a.gene_id = l.gene_id := by simpa using hc
        simp [hcE]
  · intro m hm
    rcases List.mem_flatMap.mp hm with ⟨l, hlmem, hrow⟩
    rcases List.mem_map.mp hrow with ⟨r, hrmem, hlr⟩
    refine ⟨l, hlmem, r, (List.mem_filter.mp hrmem).1, ?_, hlr.symm⟩
    have := (List.mem_filter.mp hrmem).2
    simpa using this

/-- Left fixture table for C7, identifiers g1, g2, g3. -/
def xsLeft : List LfcRow :=
  [⟨"g1", some 1, some 1, some 1, some 1⟩,
   ⟨"g2", some 2, some 2, some 2, some 2⟩,
   ⟨"g3", some 3, some 3, some 3, some 3⟩]

/-- Right fixture table for C7, identifiers g1, g2, g3. -/
def xsRight : List LfcRow :=
  [⟨"g1", some 4, some 4, some 4, some 4⟩,
   ⟨"g2", some 5, some 5, some 5, some 5⟩,
   ⟨"g3", some 6, some 6, some 6, some 6⟩]

/-- C7 witness: two tables sharing identifiers g1, g2, g3 merge to exactly
those three identifiers in the left table's order. -/
theorem claim_C7_witness :
    (innerMergeXY xsLeft xsRight).map MergedRow.Gene_id = ["g1", "g2", "g3"] :=
  ((claim_C7 xsLeft xsRight (by decide)).1).trans (by decide)

/-- C1 witness: the fixture part of C1 at its concrete input. -/
theorem claim_C1_witness :
    filter_lfc fixtureTable (-6) 6 = [fixtureRow "g1" (-8), fixtureRow "g4" 9] :=
  claim_C1.2

/-- C2 amended witness: the no-leading-separator conjunct at a concrete
input. -/
theorem claim_C2_amended_witness :
    lstripPipeSpace (mkNames "| a" "g") = mkNames "| a" "g" :=
  claim_C2_amended.2.2.2 "| a" "g"

/-- C8: evaluation at the failing input: with every condition value inside
[-6, 6], `filter_lfc` returns the empty table. The scripts contain no
conditional or error path after the filter; the run proceeds to sort and
render this empty table, so no warning is raised and no abort occurs. -/
theorem claim_C8_empty_filter :
    filter_lfc [⟨"g1", some 0, some 0, some 0, some 0⟩] (-6) 6 = [] := by
  decide

end NSP2
